import Mathlib

/-!
Verification of the partify queue/vote data model (`partify/models.py`).

The SQLAlchemy models are embedded shallowly: each model class becomes a
structure, column defaults become explicit functions, and the store is a list
of rows.  Operations that the repository only declares through its models
(vote casting, vote migration, tallying) are modelled from the specification
and marked as such in their doc comments.
-/

namespace Partify

/-- A value appearing in the dictionary produced by `PlayQueueEntry.as_dict`:
a Python string, integer, or `None`. -/
inductive PyVal where
  | none : PyVal
  | str : String → PyVal
  | int : Int → PyVal
deriving DecidableEq

/-- An optional string attribute, as Python attribute access yields it
(`None` stays `None`). -/
def ofOptStr : Option String → PyVal
  | Option.none => PyVal.none
  | Option.some s => PyVal.str s

/-- An optional integer attribute, as Python attribute access yields it. -/
def ofOptInt : Option Int → PyVal
  | Option.none => PyVal.none
  | Option.some n => PyVal.int n

/-- The `User` model (models.py lines 26-48): display name, unique username,
hashed password, privilege bitfield.  The `id` is assigned by the database,
so a freshly constructed user carries `Option.none`. -/
structure User where
  id : Option Nat
  name : Option String
  username : Option String
  password : String
  privs : Int
deriving DecidableEq

/-- `User.__init__` (models.py lines 44-48): stores
`generate_password_hash(password)` — the hashing primitive is an external
collaborator, so it is a parameter — and initialises `privs` to `0`. -/
def User.init (generate_password_hash : String → String)
    (name username : Option String) (password : String) : User :=
  { id := Option.none
    name := name
    username := username
    password := generate_password_hash password
    privs := 0 }

/-- The `Track` model (models.py lines 53-72). -/
structure Track where
  id : Option Nat
  title : Option String
  artist : Option String
  album : Option String
  length : Option Int
  date : Option String
  spotify_url : Option String
deriving DecidableEq

/-- The `PlayQueueEntry` model (models.py lines 77-99).  `time_added` is an
abstract timestamp. -/
structure PlayQueueEntry where
  id : Nat
  track : Track
  user_id : Option Nat
  user : Option User
  mpd_id : Option Int
  time_added : Nat
  user_priority : Int
  playback_priority : Int
deriving DecidableEq

/-- `PlayQueueEntry.as_dict` (models.py lines 104-115): the flat external
record.  Python's `getattr(self.user, attr, fallback)` returns the fallback
literal only when `self.user` is `None`; when a user is attached the
attribute's value is returned even if it is `None`.  `ctime` renders the
timestamp (Python's `datetime.ctime`), an external collaborator. -/
def PlayQueueEntry.as_dict (ctime : Nat → String) (e : PlayQueueEntry) :
    List (String × PyVal) :=
  [ ("title", ofOptStr e.track.title)
  , ("artist", ofOptStr e.track.artist)
  , ("album", ofOptStr e.track.album)
  , ("spotify_url", ofOptStr e.track.spotify_url)
  , ("date", ofOptStr e.track.date)
  , ("length", ofOptInt e.track.length)
  , ("id", PyVal.int e.id)
  , ("mpd_id", ofOptInt e.mpd_id)
  , ("playback_priority", PyVal.int e.playback_priority)
  , ("user_priority", PyVal.int e.user_priority)
  , ("time_added", PyVal.str (ctime e.time_added))
  , ("user", match e.user with
      | Option.none => PyVal.str "Anonymous"
      | Option.some u => ofOptStr u.name)
  , ("username", match e.user with
      | Option.none => PyVal.str "anonymous"
      | Option.some u => ofOptStr u.username)
  , ("user_id", ofOptInt (e.user_id.map (fun n => (n : Int)))) ]

/-- The field set the specification fixes for `to_external_view`.  Stated from
the spec's words (track fields, entry fields, timestamp, user display
fields), for comparison with `PlayQueueEntry.as_dict`. -/
def specifiedFields : List String :=
  [ "title", "artist", "album", "spotify_url", "date", "length"
  , "id", "mpd_id", "playback_priority", "user_priority"
  , "time_added", "user", "username" ]

/-- Maximum of a list of integers, `Option.none` on the empty list — the SQL
`max()` aggregate, which is `NULL` over an empty table. -/
def listMax : List Int → Option Int
  | [] => Option.none
  | x :: xs =>
    match listMax xs with
    | Option.none => Option.some x
    | Option.some m => Option.some (max x m)

/-- Python's `value or 0` applied to the aggregate result: `None` and `0` both
become `0`, everything else is kept. -/
def pyOrZero : Option Int → Int
  | Option.none => 0
  | Option.some v => if v = 0 then 0 else v

/-- The shared column-default pattern of models.py lines 98-99:
`(max(column) or 0) + 1` computed over the whole table. -/
def maxPlusOne (col : List Int) : Int :=
  pyOrZero (listMax col) + 1

/-- Default for `user_priority` (models.py line 98): whole-table max plus one. -/
def userPriorityDefault (table : List PlayQueueEntry) : Int :=
  maxPlusOne (table.map (fun e => e.user_priority))

/-- Default for `playback_priority` (models.py line 99): whole-table max plus
one, over the `playback_priority` column. -/
def playbackPriorityDefault (table : List PlayQueueEntry) : Int :=
  maxPlusOne (table.map (fun e => e.playback_priority))

/-- The data supplied by one enqueue request: everything except the columns
the store computes (id and the two priorities). -/
structure EnqueueReq where
  track : Track
  user : Option User
  mpd_id : Option Int
  time_added : Nat
deriving DecidableEq

/-- The live `play_queue_entry` table, in insertion order, together with the
autoincrement counter. -/
structure QueueState where
  entries : List PlayQueueEntry
  next_id : Nat
deriving DecidableEq

/-- Inserting a `PlayQueueEntry` with the column defaults of models.py
lines 91-99: autoincrement id, both priorities assigned by the
whole-table max-plus-one defaults. -/
def enqueue (st : QueueState) (r : EnqueueReq) : QueueState :=
  { entries := st.entries ++
      [ { id := st.next_id
          track := r.track
          user_id := r.user.bind (fun u => u.id)
          user := r.user
          mpd_id := r.mpd_id
          time_added := r.time_added
          user_priority := userPriorityDefault st.entries
          playback_priority := playbackPriorityDefault st.entries } ]
    next_id := st.next_id + 1 }

/-- The empty queue table. -/
def emptyQueue : QueueState := { entries := [], next_id := 1 }

/-- Performing a sequence of enqueues with no concurrent interleaving. -/
def enqueueAll (st : QueueState) (rs : List EnqueueReq) : QueueState :=
  rs.foldl enqueue st

/-- The integer sequence `1, 2, ..., k`. -/
def seq1 (k : Nat) : List Int :=
  (List.range k).map (fun i => (i : Int) + 1)

/-- The `Vote` model (models.py lines 141-164): a user reference, two
nullable target references (queue entry and history entry), and a direction
column defaulting to `0`. -/
structure Vote where
  id : Nat
  user_id : Option Nat
  pqe_id : Option Nat
  phe_id : Option Nat
  direction : Int
deriving DecidableEq

/-- The default of the `direction` column (models.py line 164). -/
def directionDefault : Int := 0

/-- A `Vote` row created without an explicit direction takes the column
default (models.py line 164). -/
def Vote.mkDefault (id : Nat) (user_id pqe_id phe_id : Option Nat) : Vote :=
  { id := id
    user_id := user_id
    pqe_id := pqe_id
    phe_id := phe_id
    direction := directionDefault }

/-- A vote target: a queue entry or a history entry, identified by its id. -/
inductive Target where
  | queue : Nat → Target
  | history : Nat → Target
deriving DecidableEq

/-- Whether a vote row targets `t`, read off the corresponding nullable
reference column. -/
def targets (t : Target) (v : Vote) : Bool :=
  match t with
  | Target.queue q => v.pqe_id == Option.some q
  | Target.history h => v.phe_id == Option.some h

/-- Whether a vote row is the row for user `u` on target `t`. -/
def voteMatches (u : Nat) (t : Target) (v : Vote) : Bool :=
  (v.user_id == Option.some u) && targets t v

/-- Modelled from the spec: the Vote row inserted on a first vote by user `u`
on target `t` with direction `d` — the vote-casting operation itself is not
under src/, only the `Vote` model is.  Exactly one target reference is set. -/
def newVote (id : Nat) (u : Nat) (t : Target) (d : Int) : Vote :=
  { id := id
    user_id := Option.some u
    pqe_id := match t with
      | Target.queue q => Option.some q
      | Target.history _ => Option.none
    phe_id := match t with
      | Target.history h => Option.some h
      | Target.queue _ => Option.none
    direction := d }

/-- Modelled from the spec: `cast_vote(user, target, direction)` — not under
src/.  If a Vote row for (user, target) exists its direction is updated in
place, otherwise a new row is inserted (with the next autoincrement id). -/
def cast_vote (st : List Vote) (next_id : Nat) (u : Nat) (t : Target)
    (d : Int) : List Vote :=
  if st.any (voteMatches u t) then
    st.map (fun v => if voteMatches u t v then { v with direction := d } else v)
  else
    st ++ [newVote next_id u t d]

/-- The vote rows held against a target. -/
def votesOn (st : List Vote) (t : Target) : List Vote :=
  st.filter (targets t)

/-- Modelled from the spec: `tally(target)` — the sum of directions across
all votes for that target (not under src/). -/
def tally (st : List Vote) (t : Target) : Int :=
  ((votesOn st t).map (fun v => v.direction)).sum

/-- Modelled from the spec: `migrate_votes(old_queue_entry, new_history_entry)`
— not under src/.  Re-points every Vote whose target was the queue entry `q`
to the new history entry `h`, preserving direction and user. -/
def migrate_votes (st : List Vote) (q h : Nat) : List Vote :=
  st.map (fun v =>
    if v.pqe_id == Option.some q then
      { v with pqe_id := Option.none, phe_id := Option.some h }
    else v)

/-- At most one Vote row per (user, target) pair. -/
def atMostOneVote (st : List Vote) : Prop :=
  ∀ u t, (st.filter (voteMatches u t)).length ≤ 1

/-- Exactly one of the two nullable target references is set. -/
def exactlyOneTarget (v : Vote) : Bool :=
  (v.pqe_id.isSome && v.phe_id.isNone) || (v.pqe_id.isNone && v.phe_id.isSome)

/-- The vote directions the spec allows. -/
def validDirection (d : Int) : Prop := d = -1 ∨ d = 0 ∨ d = 1

instance (d : Int) : Decidable (validDirection d) := by
  unfold validDirection
  infer_instance

/-- Signed 32-bit range of the SQL `INTEGER` type backing `db.Integer`, the
column type of `user_priority` (models.py line 98). -/
def userPriorityRepresentable (n : Int) : Prop :=
  -(2 ^ 31) ≤ n ∧ n < 2 ^ 31

/-- Signed 64-bit range of the SQL `BIGINT` type backing `db.BigInteger`, the
column type of `playback_priority` (models.py line 99). -/
def playbackPriorityRepresentable (n : Int) : Prop :=
  -(2 ^ 63) ≤ n ∧ n < 2 ^ 63

instance (n : Int) : Decidable (userPriorityRepresentable n) := by
  unfold userPriorityRepresentable
  infer_instance

instance (n : Int) : Decidable (playbackPriorityRepresentable n) := by
  unfold playbackPriorityRepresentable
  infer_instance

/-- A concrete track, used to instantiate witnesses. -/
def sampleTrack : Track :=
  { id := Option.some 1
    title := Option.some "Song"
    artist := Option.some "Artist"
    album := Option.some "Album"
    length := Option.some 180
    date := Option.some "2011"
    spotify_url := Option.some "spotify:track:sample" }

/-- A concrete timestamp renderer, used to instantiate witnesses. -/
def sampleCtime : Nat → String := fun _ => "Thu Jan  1 00:00:00 1970"

/-- A concrete queue entry with no attached user. -/
def sampleEntryNoUser : PlayQueueEntry :=
  { id := 1
    track := sampleTrack
    user_id := Option.none
    user := Option.none
    mpd_id := Option.some 7
    time_added := 0
    user_priority := 1
    playback_priority := 1 }

/-- A concrete user whose display name and username are both null. -/
def sampleNullNameUser : User :=
  { id := Option.some 2
    name := Option.none
    username := Option.none
    password := "pbkdf2-opaque"
    privs := 0 }

/-- A concrete queue entry whose attached user has null name and username. -/
def sampleEntryNullNameUser : PlayQueueEntry :=
  { id := 2
    track := sampleTrack
    user_id := Option.some 2
    user := Option.some sampleNullNameUser
    mpd_id := Option.none
    time_added := 0
    user_priority := 2
    playback_priority := 2 }

/-- A concrete vote store: two votes on queue entry 5, one on queue entry 6,
none on any history entry. -/
def sampleVoteStore : List Vote :=
  [ { id := 1, user_id := Option.some 10, pqe_id := Option.some 5
      phe_id := Option.none, direction := 1 }
  , { id := 2, user_id := Option.some 11, pqe_id := Option.some 5
      phe_id := Option.none, direction := -1 }
  , { id := 3, user_id := Option.some 12, pqe_id := Option.some 6
      phe_id := Option.none, direction := 1 } ]

lemma seq1_succ (k : Nat) : seq1 (k + 1) = seq1 k ++ [(k : Int) + 1] := by
  simp [seq1, List.range_succ]

lemma listMax_snoc (l : List Int) (x : Int) :
    listMax (l ++ [x]) = Option.some (match listMax l with
      | Option.none => x
      | Option.some m => max m x) := by
  induction l with
  | nil => simp [listMax]
  | cons y ys ih =>
    cases h : listMax ys with
    | none => simp [listMax, ih, h]
    | some m => simp [listMax, ih, h, max_assoc]

lemma listMax_seq1 (k : Nat) :
    listMax (seq1 k) = if k = 0 then Option.none else Option.some (k : Int) := by
  induction k with
  | zero => simp [seq1, listMax]
  | succ n ih =>
    rw [seq1_succ, listMax_snoc, ih]
    by_cases h : n = 0
    · subst h; simp
    · have h1 : (n : Int) ≤ (n : Int) + 1 := by omega
      simp [h, max_eq_right h1]

lemma maxPlusOne_seq1 (k : Nat) : maxPlusOne (seq1 k) = (k : Int) + 1 := by
  rw [maxPlusOne, listMax_seq1]
  by_cases h : k = 0
  · subst h; simp [pyOrZero]
  · have h1 : (k : Int) ≠ 0 := by exact_mod_cast h
    simp [pyOrZero, h, h1]

lemma enqueueAll_priorities (rs : List EnqueueReq) :
    ∀ (st : QueueState) (k : Nat),
      st.entries.map (fun e => e.user_priority) = seq1 k →
      st.entries.map (fun e => e.playback_priority) = seq1 k →
      (enqueueAll st rs).entries.map (fun e => e.user_priority) = seq1 (k + rs.length)
      ∧ (enqueueAll st rs).entries.map (fun e => e.playback_priority)
          = seq1 (k + rs.length) := by
  induction rs with
  | nil =>
    intro st k hu hp
    simpa [enqueueAll] using ⟨hu, hp⟩
  | cons r rs ih =>
    intro st k hu hp
    have hstepu : (enqueue st r).entries.map (fun e => e.user_priority) = seq1 (k + 1) := by
      simp [enqueue, userPriorityDefault, hu, maxPlusOne_seq1, seq1_succ]
    have hstepp : (enqueue st r).entries.map (fun e => e.playback_priority) = seq1 (k + 1) := by
      simp [enqueue, playbackPriorityDefault, hp, maxPlusOne_seq1, seq1_succ]
    have h := ih (enqueue st r) (k + 1) hstepu hstepp
    have hlen : k + 1 + rs.length = k + (rs.length + 1) := by omega
    simpa [enqueueAll, List.foldl_cons, hlen] using h

/-- C1: starting from an empty queue, every sequence of N enqueues (no
concurrent interleaving) assigns `user_priority` and `playback_priority` by
the whole-table max-plus-one defaults, so both columns read `1, 2, ..., N`
in enqueue order — strictly increasing by 1 starting at 1 (and hence
restarting at 1 whenever the table is empty again). -/
theorem enqueue_priorities_increasing (rs : List EnqueueReq) :
    (enqueueAll emptyQueue rs).entries.map (fun e => e.user_priority) = seq1 rs.length
    ∧ (enqueueAll emptyQueue rs).entries.map (fun e => e.playback_priority)
        = seq1 rs.length := by
  have h := enqueueAll_priorities rs emptyQueue 0 (by simp [emptyQueue, seq1]) (by simp [emptyQueue, seq1])
  simpa using h

/-- C5: a queue entry with no attached user projects the literal `"Anonymous"`
as the `user` field and `"anonymous"` as the `username` field of `as_dict`. -/
theorem as_dict_anonymous_fallback (ctime : Nat → String) (e : PlayQueueEntry)
    (h : e.user = Option.none) :
    (e.as_dict ctime).lookup "user" = Option.some (PyVal.str "Anonymous")
    ∧ (e.as_dict ctime).lookup "username" = Option.some (PyVal.str "anonymous") := by
  simp [PlayQueueEntry.as_dict, h, List.lookup]

theorem as_dict_anonymous_fallback_witness :
    (sampleEntryNoUser.as_dict sampleCtime).lookup "user"
        = Option.some (PyVal.str "Anonymous")
    ∧ (sampleEntryNoUser.as_dict sampleCtime).lookup "username"
        = Option.some (PyVal.str "anonymous") :=
  as_dict_anonymous_fallback sampleCtime sampleEntryNoUser rfl

/-- C6 counterexample: `as_dict` also emits a `user_id` field, which is not in
the field set the claim fixes, so the record does not consist of the claimed
fields and no others. -/
theorem as_dict_extra_field :
    "user_id" ∈ (sampleEntryNoUser.as_dict sampleCtime).map Prod.fst
    ∧ "user_id" ∉ specifiedFields := by
  constructor
  · simp [PlayQueueEntry.as_dict]
  · decide

/-- C6 amended: for every queue entry, `as_dict` produces exactly the
specified fields (track fields, entry fields, timestamp, user display
fields) plus one further field, `user_id` — and no others, in that order. -/
theorem as_dict_field_set (ctime : Nat → String) (e : PlayQueueEntry) :
    (e.as_dict ctime).map Prod.fst = specifiedFields ++ ["user_id"] := rfl

/-- C10: the anonymous fallback literals are substituted only when no user is
attached: a queue entry whose attached user has a null display name (resp.
username) projects that null value, not the fallback literal. -/
theorem as_dict_null_user_fields (ctime : Nat → String) (e : PlayQueueEntry)
    (u : User) (h : e.user = Option.some u) :
    (u.name = Option.none →
      (e.as_dict ctime).lookup "user" = Option.some PyVal.none)
    ∧ (u.username = Option.none →
      (e.as_dict ctime).lookup "username" = Option.some PyVal.none) := by
  constructor
  · intro hn
    simp [PlayQueueEntry.as_dict, h, hn, ofOptStr, List.lookup]
  · intro hn
    simp [PlayQueueEntry.as_dict, h, hn, ofOptStr, List.lookup]

theorem as_dict_null_user_fields_witness :
    (sampleEntryNullNameUser.as_dict sampleCtime).lookup "user"
        = Option.some PyVal.none
    ∧ (sampleEntryNullNameUser.as_dict sampleCtime).lookup "username"
        = Option.some PyVal.none := by
  have h := as_dict_null_user_fields sampleCtime sampleEntryNullNameUser
    sampleNullNameUser rfl
  exact ⟨h.1 rfl, h.2 rfl⟩

lemma targets_setDirection (t : Target) (v : Vote) (d : Int) :
    targets t { v with direction := d } = targets t v := by
  cases t <;> rfl

lemma voteMatches_setDirection (u : Nat) (t : Target) (v : Vote) (d : Int) :
    voteMatches u t { v with direction := d } = voteMatches u t v := by
  cases t <;> rfl

lemma vote_setDirection_self (v : Vote) (d : Int) (h : v.direction = d) :
    { v with direction := d } = v := by
  cases v
  simp_all

lemma voteMatches_targets (u : Nat) (t : Target) (v : Vote)
    (h : voteMatches u t v = true) : targets t v = true :=
  ((Bool.and_eq_true _ _).mp h).2

lemma targets_newVote (n u : Nat) (t : Target) (d : Int) :
    targets t (newVote n u t d) = true := by
  cases t <;> simp [targets, newVote]

lemma voteMatches_newVote_self (n u : Nat) (t : Target) (d : Int) :
    voteMatches u t (newVote n u t d) = true := by
  unfold voteMatches
  rw [targets_newVote n u t d]
  simp [newVote]

lemma voteMatches_newVote_iff (n u : Nat) (t : Target) (d : Int) (w : Nat)
    (s : Target) (h : voteMatches w s (newVote n u t d) = true) :
    w = u ∧ s = t := by
  cases t <;> cases s <;> simp [voteMatches, targets, newVote] at h <;> aesop

lemma filter_map_of_pres (f : Vote → Vote) (p : Vote → Bool) (l : List Vote)
    (h : ∀ v, p (f v) = p v) :
    (l.map f).filter p = (l.filter p).map f := by
  induction l with
  | nil => rfl
  | cons v vs ih =>
    simp only [List.map_cons, List.filter_cons, h v, ih]
    by_cases hv : p v = true <;> simp [hv]

lemma map_id_of_mem {α : Type} (l : List α) (f : α → α)
    (h : ∀ a ∈ l, f a = a) : l.map f = l := by
  induction l with
  | nil => rfl
  | cons x xs ih =>
    simp only [List.map_cons, h x (by simp)]
    rw [ih (fun a ha => h a (by simp [ha]))]

lemma cast_vote_of_any (st : List Vote) (n u : Nat) (t : Target) (d : Int)
    (h : st.any (voteMatches u t) = true) :
    cast_vote st n u t d
      = st.map (fun v => if voteMatches u t v then { v with direction := d } else v) := by
  unfold cast_vote
  rw [if_pos h]

lemma cast_vote_of_none (st : List Vote) (n u : Nat) (t : Target) (d : Int)
    (h : st.any (voteMatches u t) = false) :
    cast_vote st n u t d = st ++ [newVote n u t d] := by
  unfold cast_vote
  rw [if_neg (by simp [h])]

lemma cast_vote_hasMatch (st : List Vote) (n u : Nat) (t : Target) (d : Int) :
    (cast_vote st n u t d).any (voteMatches u t) = true := by
  by_cases h : st.any (voteMatches u t) = true
  · rw [cast_vote_of_any st n u t d h, List.any_map, List.any_eq_true]
    obtain ⟨v, hv, hm⟩ := List.any_eq_true.mp h
    refine ⟨v, hv, ?_⟩
    simp [Function.comp, hm, voteMatches_setDirection u t v d]
  · rw [cast_vote_of_none st n u t d (by simpa using h), List.any_append]
    simp [voteMatches_newVote_self n u t d]

lemma cast_vote_matched_direction (st : List Vote) (n u : Nat) (t : Target)
    (d : Int) (v : Vote) (hv : v ∈ cast_vote st n u t d)
    (hm : voteMatches u t v = true) : v.direction = d := by
  by_cases h : st.any (voteMatches u t) = true
  · rw [cast_vote_of_any st n u t d h] at hv
    obtain ⟨w, hw, rfl⟩ := List.mem_map.mp hv
    by_cases hw2 : voteMatches u t w = true
    · rw [if_pos hw2]
    · rw [if_neg hw2] at hm
      exact absurd hm hw2
  · rw [cast_vote_of_none st n u t d (by simpa using h)] at hv
    rcases List.mem_append.mp hv with h1 | h1
    · have hfalse := List.any_eq_false.mp (by simpa using h) v h1
      exact absurd hm hfalse
    · rw [List.mem_singleton] at h1
      subst h1
      rfl

lemma cast_vote_idem (st : List Vote) (n n' u : Nat) (t : Target) (d : Int) :
    cast_vote (cast_vote st n u t d) n' u t d = cast_vote st n u t d := by
  rw [cast_vote_of_any (cast_vote st n u t d) n' u t d (cast_vote_hasMatch st n u t d)]
  apply map_id_of_mem
  intro v hv
  by_cases hm : voteMatches u t v = true
  · rw [if_pos hm]
    exact vote_setDirection_self v d (cast_vote_matched_direction st n u t d v hv hm)
  · rw [if_neg hm]

lemma cast_vote_atMostOne (st : List Vote) (n u : Nat) (t : Target) (d : Int)
    (hst : atMostOneVote st) : atMostOneVote (cast_vote st n u t d) := by
  intro u' t'
  by_cases h : st.any (voteMatches u t) = true
  · rw [cast_vote_of_any st n u t d h]
    rw [filter_map_of_pres]
    · rw [List.length_map]
      exact hst u' t'
    · intro v
      by_cases hm : voteMatches u t v = true
      · rw [if_pos hm]
        exact voteMatches_setDirection u' t' v d
      · rw [if_neg hm]
  · rw [cast_vote_of_none st n u t d (by simpa using h)]
    rw [List.filter_append, List.length_append]
    by_cases hmatch : voteMatches u' t' (newVote n u t d) = true
    · obtain ⟨rfl, rfl⟩ := voteMatches_newVote_iff n u t d u' t' hmatch
      have hnil : st.filter (voteMatches u' t') = [] :=
        List.filter_eq_nil_iff.mpr (List.any_eq_false.mp (by simpa using h))
      simp [hnil, hmatch]
    · simp [hmatch]
      exact hst u' t'

lemma cast_vote_fresh (st : List Vote) (n u : Nat) (t : Target) (d : Int)
    (hfresh : votesOn st t = []) :
    votesOn (cast_vote st n u t d) t = [newVote n u t d] := by
  unfold votesOn at hfresh
  have hall : ∀ v ∈ st, ¬ targets t v = true := List.filter_eq_nil_iff.mp hfresh
  have hany : st.any (voteMatches u t) = false := by
    rw [List.any_eq_false]
    intro v hv hm
    exact hall v hv (voteMatches_targets u t v hm)
  rw [cast_vote_of_none st n u t d hany]
  unfold votesOn
  rw [List.filter_append, hfresh]
  simp [targets_newVote n u t d]

lemma cast_vote_fresh_tally (st : List Vote) (n u : Nat) (t : Target) (d : Int)
    (hfresh : votesOn st t = []) :
    tally (cast_vote st n u t d) t = d := by
  unfold tally
  rw [cast_vote_fresh st n u t d hfresh]
  simp [newVote]

lemma votesOn_cons (v : Vote) (st : List Vote) (t : Target) :
    votesOn (v :: st) t
      = if targets t v then v :: votesOn st t else votesOn st t := by
  simp [votesOn, List.filter_cons]

lemma migrate_votes_pairs (st : List Vote) (q h : Nat)
    (hfresh : ∀ v ∈ st, v.phe_id ≠ Option.some h) :
    (votesOn (migrate_votes st q h) (Target.history h)).map
        (fun v => (v.user_id, v.direction))
      = (votesOn st (Target.queue q)).map (fun v => (v.user_id, v.direction)) := by
  induction st with
  | nil => rfl
  | cons v vs ih =>
    have hv := hfresh v (by simp)
    have hvs : ∀ w ∈ vs, w.phe_id ≠ Option.some h :=
      fun w hw => hfresh w (by simp [hw])
    by_cases hq : (v.pqe_id == Option.some q) = true
    · rw [show migrate_votes (v :: vs) q h
          = { v with pqe_id := Option.none, phe_id := Option.some h }
              :: migrate_votes vs q h from by
        unfold migrate_votes
        rw [List.map_cons, if_pos hq]]
      rw [votesOn_cons, votesOn_cons]
      rw [if_pos (show targets (Target.history h)
            { v with pqe_id := Option.none, phe_id := Option.some h } = true
          from by simp [targets])]
      rw [if_pos (show targets (Target.queue q) v = true from hq)]
      simp only [List.map_cons]
      rw [ih hvs]
    · rw [show migrate_votes (v :: vs) q h = v :: migrate_votes vs q h from by
        unfold migrate_votes
        rw [List.map_cons, if_neg hq]]
      rw [votesOn_cons, votesOn_cons]
      rw [if_neg (show ¬ targets (Target.history h) v = true from by
        simp [targets, hv])]
      rw [if_neg (show ¬ targets (Target.queue q) v = true from hq)]
      exact ih hvs

lemma migrate_votes_tally (st : List Vote) (q h : Nat)
    (hfresh : ∀ v ∈ st, v.phe_id ≠ Option.some h) :
    tally (migrate_votes st q h) (Target.history h) = tally st (Target.queue q) := by
  have h1 := migrate_votes_pairs st q h hfresh
  unfold tally
  have h2 := congrArg (fun l => (l.map Prod.snd).sum) h1
  simpa [List.map_map, Function.comp] using h2

lemma exactlyOneTarget_setDirection (v : Vote) (d : Int) :
    exactlyOneTarget { v with direction := d } = exactlyOneTarget v := rfl

lemma exactlyOneTarget_newVote (n u : Nat) (t : Target) (d : Int) :
    exactlyOneTarget (newVote n u t d) = true := by
  cases t <;> rfl

/-- C2: `cast_vote` preserves the at-most-one-Vote-row-per-(user, target)
invariant; casting the same direction twice is observably a no-op (the store
is unchanged by the second cast); and on a target with no prior votes a cast
leaves exactly one Vote row on that target, with direction `d` and
`tally = d`. -/
theorem cast_vote_upsert_idempotent (st : List Vote) (n n' u : Nat)
    (t : Target) (d : Int) :
    (atMostOneVote st → atMostOneVote (cast_vote st n u t d))
    ∧ cast_vote (cast_vote st n u t d) n' u t d = cast_vote st n u t d
    ∧ (votesOn st t = [] →
        votesOn (cast_vote st n u t d) t = [newVote n u t d]
        ∧ tally (cast_vote st n u t d) t = d) :=
  ⟨cast_vote_atMostOne st n u t d,
   cast_vote_idem st n n' u t d,
   fun hfresh => ⟨cast_vote_fresh st n u t d hfresh,
                  cast_vote_fresh_tally st n u t d hfresh⟩⟩

theorem cast_vote_upsert_idempotent_witness :
    atMostOneVote (cast_vote [] 1 10 (Target.queue 5) 1)
    ∧ cast_vote (cast_vote [] 1 10 (Target.queue 5) 1) 2 10 (Target.queue 5) 1
        = cast_vote [] 1 10 (Target.queue 5) 1
    ∧ votesOn (cast_vote [] 1 10 (Target.queue 5) 1) (Target.queue 5)
        = [newVote 1 10 (Target.queue 5) 1]
    ∧ tally (cast_vote [] 1 10 (Target.queue 5) 1) (Target.queue 5) = 1 := by
  have h := cast_vote_upsert_idempotent [] 1 2 10 (Target.queue 5) 1
  have h1 := h.1 (by intro u t; simp [atMostOneVote])
  have h3 := h.2.2 rfl
  exact ⟨h1, h.2.1, h3.1, h3.2⟩

/-- C3: migrating the votes of a dequeued queue entry `q` onto a fresh
history entry `h` re-points every vote, preserving user and direction, so
the (user, direction) pairs on `h` afterwards are exactly those on `q`
before, and the tally carries over. -/
theorem migrate_votes_preserves (st : List Vote) (q h : Nat)
    (hfresh : ∀ v ∈ st, v.phe_id ≠ Option.some h) :
    (votesOn (migrate_votes st q h) (Target.history h)).map
        (fun v => (v.user_id, v.direction))
      = (votesOn st (Target.queue q)).map (fun v => (v.user_id, v.direction))
    ∧ tally (migrate_votes st q h) (Target.history h)
        = tally st (Target.queue q) :=
  ⟨migrate_votes_pairs st q h hfresh, migrate_votes_tally st q h hfresh⟩

theorem migrate_votes_preserves_witness :
    (votesOn (migrate_votes sampleVoteStore 5 9) (Target.history 9)).map
        (fun v => (v.user_id, v.direction))
      = (votesOn sampleVoteStore (Target.queue 5)).map
        (fun v => (v.user_id, v.direction))
    ∧ tally (migrate_votes sampleVoteStore 5 9) (Target.history 9)
        = tally sampleVoteStore (Target.queue 5) :=
  migrate_votes_preserves sampleVoteStore 5 9 (by decide)

/-- C4 counterexample: in the source model the Vote target is two nullable
references with no exactly-one constraint, so the both-null state and the
both-set state are representable — here exhibited as concrete rows. -/
theorem vote_target_anomalies_representable :
    (Vote.mk 1 (Option.some 1) Option.none Option.none 0).pqe_id = Option.none
    ∧ (Vote.mk 1 (Option.some 1) Option.none Option.none 0).phe_id = Option.none
    ∧ (Vote.mk 2 (Option.some 1) (Option.some 3) (Option.some 4) 0).pqe_id
        = Option.some 3
    ∧ (Vote.mk 2 (Option.some 1) (Option.some 3) (Option.some 4) 0).phe_id
        = Option.some 4 := by
  decide

/-- C4 amended: the Vote target is a weak union encoding over two nullable
references — both-null and both-set states remain representable (see the
counterexample) — but every vote inserted by `cast_vote` has exactly one
reference set, and both `cast_vote` and `migrate_votes` preserve the
exactly-one-target invariant. -/
theorem vote_target_exactly_one (st : List Vote) (n u : Nat) (t : Target)
    (d : Int) (q hh : Nat) (hst : ∀ v ∈ st, exactlyOneTarget v = true) :
    exactlyOneTarget (newVote n u t d) = true
    ∧ (∀ v ∈ cast_vote st n u t d, exactlyOneTarget v = true)
    ∧ (∀ v ∈ migrate_votes st q hh, exactlyOneTarget v = true) := by
  refine ⟨exactlyOneTarget_newVote n u t d, ?_, ?_⟩
  · intro v hv
    by_cases hany : st.any (voteMatches u t) = true
    · rw [cast_vote_of_any st n u t d hany] at hv
      obtain ⟨w, hw, rfl⟩ := List.mem_map.mp hv
      by_cases hm : voteMatches u t w = true
      · rw [if_pos hm, exactlyOneTarget_setDirection]
        exact hst w hw
      · rw [if_neg hm]
        exact hst w hw
    · rw [cast_vote_of_none st n u t d (by simpa using hany)] at hv
      rcases List.mem_append.mp hv with h1 | h1
      · exact hst v h1
      · rw [List.mem_singleton] at h1
        subst h1
        exact exactlyOneTarget_newVote n u t d
  · intro v hv
    unfold migrate_votes at hv
    obtain ⟨w, hw, rfl⟩ := List.mem_map.mp hv
    by_cases hq : (w.pqe_id == Option.some q) = true
    · rw [if_pos hq]
      rfl
    · rw [if_neg hq]
      exact hst w hw

theorem vote_target_exactly_one_witness :
    exactlyOneTarget (newVote 1 10 (Target.queue 5) 1) = true
    ∧ (∀ v ∈ cast_vote [] 1 10 (Target.queue 5) 1, exactlyOneTarget v = true)
    ∧ (∀ v ∈ migrate_votes [] 5 9, exactlyOneTarget v = true) :=
  vote_target_exactly_one [] 1 10 (Target.queue 5) 1 5 9 (by simp)

/-- C7: a Vote row created without an explicit direction takes the column
default `0`; when every cast direction lies in the set -1, 0, 1, every
stored direction stays in that set; and a retraction — casting direction `0`
on an existing row — keeps the row rather than deleting it: the row count is
unchanged and the matching row is present with direction `0`. -/
theorem vote_direction_spec (i : Nat) (uid p ph : Option Nat) (st : List Vote)
    (n u : Nat) (t : Target) (d : Int) (hd : validDirection d)
    (hst : ∀ v ∈ st, validDirection v.direction) :
    (Vote.mkDefault i uid p ph).direction = 0
    ∧ (∀ v ∈ cast_vote st n u t d, validDirection v.direction)
    ∧ (st.any (voteMatches u t) = true →
        (cast_vote st n u t 0).length = st.length
        ∧ ∃ v ∈ cast_vote st n u t 0,
            voteMatches u t v = true ∧ v.direction = 0) := by
  refine ⟨rfl, ?_, ?_⟩
  · intro v hv
    by_cases hany : st.any (voteMatches u t) = true
    · rw [cast_vote_of_any st n u t d hany] at hv
      obtain ⟨w, hw, rfl⟩ := List.mem_map.mp hv
      by_cases hm : voteMatches u t w = true
      · rw [if_pos hm]
        exact hd
      · rw [if_neg hm]
        exact hst w hw
    · rw [cast_vote_of_none st n u t d (by simpa using hany)] at hv
      rcases List.mem_append.mp hv with h1 | h1
      · exact hst v h1
      · rw [List.mem_singleton] at h1
        subst h1
        exact hd
  · intro hany
    rw [cast_vote_of_any st n u t 0 hany]
    constructor
    · exact List.length_map st _
    · obtain ⟨w, hw, hm⟩ := List.any_eq_true.mp hany
      refine ⟨if voteMatches u t w then { w with direction := 0 } else w,
        List.mem_map_of_mem _ hw, ?_⟩
      rw [if_pos hm]
      exact ⟨by rw [voteMatches_setDirection u t w 0]; exact hm, rfl⟩

theorem vote_direction_spec_witness :
    (Vote.mkDefault 1 (Option.some 10) (Option.some 5) Option.none).direction = 0
    ∧ (∀ v ∈ cast_vote [newVote 1 10 (Target.queue 5) 1] 2 10 (Target.queue 5) 1,
        validDirection v.direction)
    ∧ ((cast_vote [newVote 1 10 (Target.queue 5) 1] 2 10 (Target.queue 5) 0).length
          = [newVote 1 10 (Target.queue 5) 1].length
        ∧ ∃ v ∈ cast_vote [newVote 1 10 (Target.queue 5) 1] 2 10 (Target.queue 5) 0,
            voteMatches 10 (Target.queue 5) v = true ∧ v.direction = 0) := by
  have h := vote_direction_spec 1 (Option.some 10) (Option.some 5) Option.none
    [newVote 1 10 (Target.queue 5) 1] 2 10 (Target.queue 5) 1
    (by decide) (by decide)
  exact ⟨h.1, h.2.1, h.2.2 (by decide)⟩

/-- C8: `create_user` stores as credential only the output of the hashing
primitive on the plaintext — the stored record depends on the plaintext only
through its hash, so the plaintext itself is never stored — and the new
user's privilege bitfield is `0`. -/
theorem create_user_spec (generate_password_hash : String → String)
    (name username : Option String) (pw pw' : String) :
    (User.init generate_password_hash name username pw).password
        = generate_password_hash pw
    ∧ (User.init generate_password_hash name username pw).privs = 0
    ∧ (generate_password_hash pw = generate_password_hash pw' →
        User.init generate_password_hash name username pw
          = User.init generate_password_hash name username pw') := by
  refine ⟨rfl, rfl, fun h => ?_⟩
  simp [User.init, h]

theorem create_user_spec_witness :
    (User.init (fun s => s) Option.none Option.none "pw").password = "pw"
    ∧ (User.init (fun s => s) Option.none Option.none "pw").privs = 0
    ∧ User.init (fun s => s) Option.none Option.none "pw"
        = User.init (fun s => s) Option.none Option.none "pw" :=
  ⟨(create_user_spec (fun s => s) Option.none Option.none "pw" "pw").1,
   (create_user_spec (fun s => s) Option.none Option.none "pw" "pw").2.1,
   (create_user_spec (fun s => s) Option.none Option.none "pw" "pw").2.2 rfl⟩

/-- C9: the `playback_priority` column type (`BigInteger`, a signed 64-bit
SQL `BIGINT`) has a strictly wider range than the `user_priority` column
type (`Integer`, a signed 32-bit SQL `INTEGER`), while both columns are
assigned by the same whole-table max-plus-one default pattern. -/
theorem playback_priority_wider_range :
    (∀ m : Int, userPriorityRepresentable m → playbackPriorityRepresentable m)
    ∧ (playbackPriorityRepresentable (2 ^ 31)
        ∧ ¬ userPriorityRepresentable (2 ^ 31))
    ∧ (∀ table : List PlayQueueEntry,
        userPriorityDefault table
            = maxPlusOne (table.map (fun e => e.user_priority))
        ∧ playbackPriorityDefault table
            = maxPlusOne (table.map (fun e => e.playback_priority))) := by
  refine ⟨?_, ⟨?_, ?_⟩, fun table => ⟨rfl, rfl⟩⟩
  · intro m hm
    simp only [userPriorityRepresentable, playbackPriorityRepresentable] at hm ⊢
    norm_num at hm ⊢
    omega
  · simp only [playbackPriorityRepresentable]
    norm_num
  · simp only [userPriorityRepresentable]
    norm_num

theorem playback_priority_wider_range_witness :
    playbackPriorityRepresentable 0 :=
  playback_priority_wider_range.1 0 (by decide)

end Partify
